import Mathlib

/-!
Verification of the LSCP (Locally Selective Combination of Parallel Outlier
Ensembles) detector, `pyod/models/lscp.py`.

The core algorithm — local-region estimation by repeated random-subspace
k-NN voting, histogram-based competency selection, and the scoring
orchestrator — is embedded shallowly below.  Matrices are lists of rows of
rationals (float64 idealised as `ℚ`); a per-point score of `none` models a
NaN produced by `np.mean` over an empty candidate list.  External
collaborators scoped out by the design (the spatial index / `KDTree`, the
random subspace sampler `generate_bagging_indices`, the Pearson correlation
primitive and the joint standardizer) are passed in as a `Collab` record of
total functions, with validity predicates where a property needs their
contract.
-/

abbrev Mat := List (List ℚ)

/-- Number of columns of a row-major matrix (`X.shape[1]`). -/
def numCols (M : Mat) : ℕ := (M.headD []).length

/-- Mean of a list of rationals; `none` models the NaN that `np.mean`
produces on an empty array. -/
def qMean (l : List ℚ) : Option ℚ :=
  if l.isEmpty then none else some (l.sum / (l.length : ℚ))

/-- Minimum of a list of rationals (`np.min`); junk value 0 on `[]`. -/
def listMinQ : List ℚ → ℚ
  | [] => 0
  | x :: xs => xs.foldl min x

/-- Maximum of a list of rationals (`np.max`); junk value 0 on `[]`. -/
def listMaxQ : List ℚ → ℚ
  | [] => 0
  | x :: xs => xs.foldl max x

/-- Maximum of a list of naturals, 0 on `[]`. -/
def listMaxN (l : List ℕ) : ℕ := l.foldr max 0

/-- Index of the first occurrence of the maximum of a list of naturals
(scan order breaks ties towards the front). -/
def idxOfMax : List ℕ → ℕ
  | [] => 0
  | x :: xs => if listMaxN xs ≤ x then 0 else idxOfMax xs + 1

/-- Modelled from the spec: `argmaxn` (`pyod.utils.utility`, not under
`src/`) selects the `n` top bins by count via a stable rule that returns
the first bin reaching that count in scan order on ties (§4.2); LSCP only
ever calls it with `n_selected = 1`, where it yields the first argmax. -/
def argmaxn (xs : List ℕ) : ℕ → List ℕ
  | 0 => []
  | n + 1 => idxOfMax xs :: argmaxn (xs.set (idxOfMax xs) 0) n

/-- First-occurrence deduplication, matching the key order of
`collections.Counter(list).items()`. -/
def uniqueKeys : List ℕ → List ℕ
  | [] => []
  | x :: xs => x :: uniqueKeys (xs.filter (fun y => y ≠ x))
termination_by l => l.length
decreasing_by
  simp only [List.length_cons]
  exact Nat.lt_succ_of_le (List.length_filter_le _ _)

/-- Python `int(q)` on the non-negative quantities used by LSCP (floor). -/
def natFloor (q : ℚ) : ℕ := ⌊q⌋.toNat

/-- Ceiling of a rational, clamped to ℕ (used only to state the spec's
claimed bounds). -/
def natCeil (q : ℚ) : ℕ := ⌈q⌉.toNat

section ListLemmas

theorem foldl_min_le_init (l : List ℚ) (a : ℚ) : l.foldl min a ≤ a := by
  induction l generalizing a with
  | nil => exact le_refl a
  | cons x xs ih =>
    simpa using le_trans (ih (min a x)) (min_le_left a x)

theorem foldl_min_le_mem {y : ℚ} {l : List ℚ} (h : y ∈ l) (a : ℚ) :
    l.foldl min a ≤ y := by
  induction l generalizing a with
  | nil => cases h
  | cons x xs ih =>
    rcases List.mem_cons.1 h with rfl | hy
    · simpa using le_trans (foldl_min_le_init xs (min a y)) (min_le_right a y)
    · simpa using ih hy (min a x)

theorem le_foldl_max_init (l : List ℚ) (a : ℚ) : a ≤ l.foldl max a := by
  induction l generalizing a with
  | nil => exact le_refl a
  | cons x xs ih =>
    simpa using le_trans (le_max_left a x) (ih (max a x))

theorem mem_le_foldl_max {y : ℚ} {l : List ℚ} (h : y ∈ l) (a : ℚ) :
    y ≤ l.foldl max a := by
  induction l generalizing a with
  | nil => cases h
  | cons x xs ih =>
    rcases List.mem_cons.1 h with rfl | hy
    · simpa using le_trans (le_max_right a y) (le_foldl_max_init xs (max a y))
    · simpa using ih hy (max a x)

theorem listMinQ_le {y : ℚ} {l : List ℚ} (h : y ∈ l) : listMinQ l ≤ y := by
  cases l with
  | nil => cases h
  | cons x xs =>
    rcases List.mem_cons.1 h with rfl | hy
    · exact foldl_min_le_init xs y
    · exact foldl_min_le_mem hy x

theorem le_listMaxQ {y : ℚ} {l : List ℚ} (h : y ∈ l) : y ≤ listMaxQ l := by
  cases l with
  | nil => cases h
  | cons x xs =>
    rcases List.mem_cons.1 h with rfl | hy
    · exact le_foldl_max_init xs y
    · exact mem_le_foldl_max hy x

theorem listMinQ_le_listMaxQ {l : List ℚ} (h : l ≠ []) :
    listMinQ l ≤ listMaxQ l := by
  cases l with
  | nil => exact absurd rfl h
  | cons x xs =>
    have h1 : listMinQ (x :: xs) ≤ x := listMinQ_le (List.mem_cons_self x xs)
    have h2 : x ≤ listMaxQ (x :: xs) := le_listMaxQ (List.mem_cons_self x xs)
    exact le_trans h1 h2

theorem getD_le_listMaxN (l : List ℕ) (b : ℕ) (hb : b < l.length) :
    l.getD b 0 ≤ listMaxN l := by
  induction l generalizing b with
  | nil => simp at hb
  | cons x xs ih =>
    cases b with
    | zero => simp [listMaxN]
    | succ b =>
      have := ih b (by simpa using Nat.lt_of_succ_lt_succ hb)
      simp only [List.getD_cons_succ]
      exact le_trans this (by simp [listMaxN])

theorem idxOfMax_lt {l : List ℕ} (h : l ≠ []) : idxOfMax l < l.length := by
  induction l with
  | nil => exact absurd rfl h
  | cons x xs ih =>
    by_cases hx : listMaxN xs ≤ x
    · simp [idxOfMax, hx]
    · have hxs : xs ≠ [] := by
        intro hn; subst hn; simp [listMaxN] at hx
      simp only [idxOfMax, hx, if_false, List.length_cons]
      exact Nat.succ_lt_succ (ih hxs)

theorem listMaxN_cons (x : ℕ) (xs : List ℕ) :
    listMaxN (x :: xs) = max x (listMaxN xs) := rfl

theorem getD_idxOfMax {l : List ℕ} (h : l ≠ []) :
    l.getD (idxOfMax l) 0 = listMaxN l := by
  induction l with
  | nil => exact absurd rfl h
  | cons x xs ih =>
    by_cases hx : listMaxN xs ≤ x
    · rw [idxOfMax, if_pos hx, List.getD_cons_zero, listMaxN_cons,
        Nat.max_eq_left hx]
    · have hxs : xs ≠ [] := by
        intro hn; subst hn; simp [listMaxN] at hx
      have hlt := Nat.lt_of_not_le hx
      rw [idxOfMax, if_neg hx, List.getD_cons_succ, ih hxs, listMaxN_cons,
        Nat.max_eq_right (le_of_lt hlt)]

theorem mem_uniqueKeys {a : ℕ} : ∀ {l : List ℕ}, a ∈ uniqueKeys l ↔ a ∈ l
  | [] => by simp [uniqueKeys]
  | x :: xs => by
    rw [uniqueKeys]
    by_cases hax : a = x
    · subst hax; simp
    · simp only [List.mem_cons, hax, false_or]
      rw [mem_uniqueKeys (l := xs.filter (fun y => y ≠ x))]
      simp [List.mem_filter, hax]
termination_by l => l.length
decreasing_by
  simp only [List.length_cons]
  exact Nat.lt_succ_of_le (List.length_filter_le _ _)

theorem length_uniqueKeys_le : ∀ l : List ℕ, (uniqueKeys l).length ≤ l.length
  | [] => by simp [uniqueKeys]
  | x :: xs => by
    rw [uniqueKeys]
    simp only [List.length_cons]
    exact Nat.succ_le_succ
      (le_trans (length_uniqueKeys_le (xs.filter (fun y => y ≠ x)))
        (List.length_filter_le _ _))
termination_by l => l.length
decreasing_by
  simp only [List.length_cons]
  exact Nat.lt_succ_of_le (List.length_filter_le _ _)

theorem getD_map_range {α : Type} (f : ℕ → α) (d : α) {n b : ℕ} (h : b < n) :
    (((List.range n).map f).getD b d) = f b := by
  rw [List.getD_eq_getElem?_getD, List.getElem?_map]
  simp [List.getElem?_range h]

theorem getD_map_lt {α β : Type} (f : α → β) (dα : α) (dβ : β)
    {l : List α} {j : ℕ} (h : j < l.length) :
    (l.map f).getD j dβ = f (l.getD j dα) := by
  rw [List.getD_eq_getElem?_getD, List.getElem?_map,
    List.getElem?_eq_getElem h, List.getD_eq_getElem?_getD,
    List.getElem?_eq_getElem h]
  rfl

theorem getD_mem_of_lt {α : Type} (l : List α) (d : α) {j : ℕ}
    (h : j < l.length) : l.getD j d ∈ l := by
  rw [List.getD_eq_getElem?_getD, List.getElem?_eq_getElem h]
  exact List.getElem_mem h

theorem getD_zipWith_append {a b : List (List ℕ)} {j : ℕ}
    (hj : j < a.length) (hab : a.length = b.length) :
    (List.zipWith (fun x y => x ++ y) a b).getD j [] =
      a.getD j [] ++ b.getD j [] := by
  induction a generalizing b j with
  | nil => simp at hj
  | cons x xs ih =>
    cases b with
    | nil => simp at hab
    | cons y ys =>
      cases j with
      | zero => simp
      | succ j =>
        simp only [List.zipWith_cons_cons, List.getD_cons_succ]
        exact ih (by simpa using Nat.lt_of_succ_lt_succ hj) (by simpa using hab)

end ListLemmas

/-!
`np.histogram(scores, bins=n)` over exact rationals: `n` equal-width bins
spanning `[min(scores), max(scores)]` (range expanded by ±1/2 when the data
is constant, as numpy does); every bin is half-open on the right except the
last, which is closed.
-/

/-- Lower edge of the histogram range. -/
def binLo (s : List ℚ) : ℚ :=
  if listMinQ s = listMaxQ s then listMinQ s - 1/2 else listMinQ s

/-- Upper edge of the histogram range. -/
def binHi (s : List ℚ) : ℚ :=
  if listMinQ s = listMaxQ s then listMaxQ s + 1/2 else listMaxQ s

/-- The `i`-th of the `n+1` equally spaced bin edges (`np.linspace`). -/
def binEdge (s : List ℚ) (n i : ℕ) : ℚ :=
  binLo s + (i : ℚ) * (binHi s - binLo s) / (n : ℚ)

/-- Edge array returned by `np.histogram` (length `n + 1`). -/
def bin_edges (s : List ℚ) (n : ℕ) : List ℚ :=
  (List.range (n + 1)).map (binEdge s n)

/-- Bin membership as counted by `np.histogram`: half-open bins, except the
final bin which also contains its right edge. -/
def inBin (s : List ℚ) (n b : ℕ) (x : ℚ) : Bool :=
  if b + 1 = n then
    decide (binEdge s n b ≤ x) && decide (x ≤ binEdge s n (b + 1))
  else
    decide (binEdge s n b ≤ x) && decide (x < binEdge s n (b + 1))

/-- Count array returned by `np.histogram` (length `n`). -/
def histogram (s : List ℚ) (n : ℕ) : List ℕ :=
  (List.range n).map (fun b => (s.filter (inBin s n b)).length)

section HistogramLemmas

theorem binLo_le {x : ℚ} {s : List ℚ} (hx : x ∈ s) : binLo s ≤ x := by
  have := listMinQ_le hx
  unfold binLo
  split <;> linarith

theorem le_binHi {x : ℚ} {s : List ℚ} (hx : x ∈ s) : x ≤ binHi s := by
  have := le_listMaxQ hx
  unfold binHi
  split <;> linarith

theorem binWidth_pos {s : List ℚ} (h : s ≠ []) : 0 < binHi s - binLo s := by
  by_cases he : listMinQ s = listMaxQ s
  · simp only [binLo, binHi, if_pos he]
    linarith
  · have hle := listMinQ_le_listMaxQ h
    have hlt := lt_of_le_of_ne hle he
    simp only [binLo, binHi, if_neg he]
    linarith

theorem binEdge_le_iff {s : List ℚ} {n i : ℕ} {x : ℚ}
    (hn : 0 < (n : ℚ)) :
    binEdge s n i ≤ x ↔
      (i : ℚ) * (binHi s - binLo s) ≤ (x - binLo s) * (n : ℚ) := by
  rw [binEdge, ← le_sub_iff_add_le', div_le_iff₀ hn]

theorem lt_binEdge_iff {s : List ℚ} {n i : ℕ} {x : ℚ}
    (hn : 0 < (n : ℚ)) :
    x < binEdge s n i ↔
      (x - binLo s) * (n : ℚ) < (i : ℚ) * (binHi s - binLo s) := by
  rw [binEdge, ← sub_lt_iff_lt_add', lt_div_iff₀ hn]

theorem binEdge_last {s : List ℚ} {n : ℕ} (hn : 0 < (n : ℚ)) :
    binEdge s n n = binHi s := by
  rw [binEdge, mul_div_assoc, mul_div_cancel₀ _ (ne_of_gt hn)]
  ring

theorem exists_bin {s : List ℚ} {n : ℕ} (hn : 1 ≤ n) {x : ℚ} (hx : x ∈ s) :
    ∃ b, b < n ∧ inBin s n b x = true := by
  have hne : s ≠ [] := by rintro rfl; cases hx
  have hw : 0 < binHi s - binLo s := binWidth_pos hne
  have hnq : 0 < (n : ℚ) := by exact_mod_cast hn
  have hlo : binLo s ≤ x := binLo_le hx
  have hhi : x ≤ binHi s := le_binHi hx
  set t : ℚ := (x - binLo s) * (n : ℚ) / (binHi s - binLo s) with ht
  have ht0 : 0 ≤ t := by
    apply div_nonneg _ (le_of_lt hw)
    have : 0 ≤ x - binLo s := by linarith
    positivity
  have hk0 : 0 ≤ ⌊t⌋ := Int.floor_nonneg.2 ht0
  set k : ℕ := ⌊t⌋.toNat with hk
  have hkt : (k : ℚ) ≤ t := by
    rw [hk]
    rw [show ((⌊t⌋.toNat : ℕ) : ℚ) = ((⌊t⌋ : ℤ) : ℚ) by
      exact_mod_cast congrArg Int.cast (Int.toNat_of_nonneg hk0)]
    exact Int.floor_le t
  have htk1 : t < (k : ℚ) + 1 := by
    rw [hk]
    rw [show ((⌊t⌋.toNat : ℕ) : ℚ) = ((⌊t⌋ : ℤ) : ℚ) by
      exact_mod_cast congrArg Int.cast (Int.toNat_of_nonneg hk0)]
    exact Int.lt_floor_add_one t
  by_cases hcase : k + 1 < n
  · refine ⟨k, Nat.lt_of_succ_lt hcase, ?_⟩
    have hb1 : ¬ (k + 1 = n) := Nat.ne_of_lt hcase
    rw [inBin, if_neg hb1, Bool.and_eq_true, decide_eq_true_iff,
      decide_eq_true_iff]
    constructor
    · rw [binEdge_le_iff hnq]
      rw [← le_div_iff₀ hw]
      exact hkt
    · rw [lt_binEdge_iff hnq]
      rw [← div_lt_iff₀ hw]
      push_cast
      exact htk1
  · refine ⟨n - 1, Nat.sub_lt (Nat.lt_of_lt_of_le Nat.zero_lt_one hn) Nat.zero_lt_one, ?_⟩
    have hb1 : n - 1 + 1 = n := Nat.succ_pred_eq_of_pos (Nat.lt_of_lt_of_le Nat.zero_lt_one hn)
    rw [inBin, if_pos hb1, Bool.and_eq_true, decide_eq_true_iff,
      decide_eq_true_iff]
    constructor
    · rw [binEdge_le_iff hnq, ← le_div_iff₀ hw]
      have h1 : n - 1 ≤ k := by omega
      have : ((n - 1 : ℕ) : ℚ) ≤ (k : ℚ) := by exact_mod_cast h1
      linarith
    · rw [hb1, binEdge_last hnq]
      exact hhi

theorem inBin_closed {s : List ℚ} {n b : ℕ} {x : ℚ}
    (h : inBin s n b x = true) :
    binEdge s n b ≤ x ∧ x ≤ binEdge s n (b + 1) := by
  rw [inBin] at h
  split at h <;>
    rw [Bool.and_eq_true, decide_eq_true_iff, decide_eq_true_iff] at h
  · exact h
  · exact ⟨h.1, le_of_lt h.2⟩

theorem histogram_getD {s : List ℚ} {n b : ℕ} (hb : b < n) :
    (histogram s n).getD b 0 = (s.filter (inBin s n b)).length := by
  rw [histogram, getD_map_range _ _ hb]

theorem bin_edges_getD {s : List ℚ} {n b : ℕ} (hb : b < n + 1) :
    (bin_edges s n).getD b 0 = binEdge s n b := by
  rw [bin_edges, getD_map_range _ _ hb]

theorem length_histogram (s : List ℚ) (n : ℕ) :
    (histogram s n).length = n := by
  simp [histogram]

/-- Key density fact: the first argmax bin of a histogram over a nonempty
score list holds at least one score. -/
theorem max_bin_nonempty {s : List ℚ} {n : ℕ} (hs : s ≠ []) (hn : 1 ≤ n) :
    1 ≤ (s.filter (inBin s n (idxOfMax (histogram s n)))).length := by
  obtain ⟨x, hx⟩ := List.exists_mem_of_ne_nil s hs
  obtain ⟨b, hb, hxb⟩ := exists_bin hn hx
  have hmem : x ∈ s.filter (inBin s n b) := List.mem_filter.2 ⟨hx, hxb⟩
  have h1 : 1 ≤ (s.filter (inBin s n b)).length :=
    List.length_pos.2 (List.ne_nil_of_mem hmem)
  have h2 : (histogram s n).getD b 0 ≤ listMaxN (histogram s n) :=
    getD_le_listMaxN _ b (by rw [length_histogram]; exact hb)
  have hhist_ne : histogram s n ≠ [] := by
    intro hnil
    have := length_histogram s n
    rw [hnil] at this
    simp at this
    omega
  have h3 : (histogram s n).getD (idxOfMax (histogram s n)) 0
      = listMaxN (histogram s n) := getD_idxOfMax hhist_ne
  have hb' : idxOfMax (histogram s n) < n := by
    have := idxOfMax_lt hhist_ne
    rwa [length_histogram] at this
  rw [← histogram_getD hb', h3]
  rw [histogram_getD hb] at h2
  omega

end HistogramLemmas

/-!
The LSCP object state and its external collaborators.
-/

/-- Mutable state of an `LSCP` object: the constructor-time configuration
together with the attributes written by `fit` and by the scoring path
(`random_state` is the stored random-source handle, advanced in place by
the subspace sampler; `training_pseudo_label` is rewritten on every scoring
call; `n_bins` is clamped in place by `_get_competent_detectors`). -/
@[ext]
structure LSCPModel where
  n_clf : ℕ
  local_region_size : ℕ
  local_max_features : ℚ
  local_min_features : ℚ
  local_region_iterations : ℕ
  local_region_threshold : ℕ
  n_bins : ℕ
  n_selected : ℕ
  rng : ℕ
  n_features : ℕ
  X_train_norm : Mat
  train_scores : Mat
  training_pseudo_label : List ℚ
deriving DecidableEq

/-- External collaborators (spec §6): the random subspace sampler
(`generate_bagging_indices` threading the stored random source), the
spatial index (`KDTree` build + k-NN query), the Pearson correlation
primitive (total per the §6 contract; its value on a degenerate region is
its own §7 policy choice), the joint standardizer, and the base detectors'
`decision_function` columns. -/
structure Collab where
  sample : ℕ → ℕ → ℕ → ℕ → List ℕ × ℕ
  knn : Mat → Mat → ℕ → List (List ℕ)
  pearson : List ℚ → List ℚ → ℚ
  standardize : Mat → Mat → Mat × Mat
  detectorScores : ℕ → Mat → List ℚ

/-- Modelled from the spec: contract of the Random Subspace Sampler
(`generate_bagging_indices`, not under `src/`): given a state handle, a
feature count and bounds, it returns a set of distinct in-range feature
indices whose size lies between the bounds, plus the advanced handle
(§6). -/
def SamplerValid (f : ℕ → ℕ → ℕ → ℕ → List ℕ × ℕ) : Prop :=
  ∀ rng d mn mx, mn ≤ mx → mx ≤ d →
    (f rng d mn mx).1.Nodup ∧ mn ≤ (f rng d mn mx).1.length ∧
      (f rng d mn mx).1.length ≤ mx ∧ ∀ i ∈ (f rng d mn mx).1, i < d

/-- Contract of the spatial index collaborator: one neighbor list per query
row, each of length `k` (spec §6). -/
def KnnValid (f : Mat → Mat → ℕ → List (List ℕ)) : Prop :=
  ∀ tr te k, (f tr te k).length = te.length ∧ ∀ l ∈ f tr te k, l.length = k

/-- `LSCP.__init__`: records the configuration, fixes the constants
(`local_min_features = 0.5`, 20 iterations, threshold `int(20/2) = 10`,
`n_selected = 1`), clamps `local_max_features` to 1.0 and fails when fewer
than 2 estimators are supplied. -/
def initLSCP (n_est region_size : ℕ) (max_features : ℚ) (bins rng : ℕ) :
    Except String LSCPModel :=
  if n_est ≤ 1 then
    Except.error "The estimator list has less than 2 estimators."
  else
    Except.ok
      { n_clf := n_est
        local_region_size := region_size
        local_max_features := if 1 < max_features then 1 else max_features
        local_min_features := 1/2
        local_region_iterations := 20
        local_region_threshold := 10
        n_bins := bins
        n_selected := 1
        rng := rng
        n_features := 0
        X_train_norm := []
        train_scores := []
        training_pseudo_label := [] }

/-- Restriction of a matrix to a feature subspace (`M[:, features]`). -/
def colsSel (M : Mat) (fs : List ℕ) : Mat :=
  M.map (fun row => fs.map (fun f => row.getD f 0))

/-- Iterated subspace sampling: threads the random-state handle through
`local_region_iterations` calls of the sampler, collecting the drawn
feature subspaces and the final handle. -/
def sampleIters (C : Collab) (d mn mx : ℕ) : ℕ → ℕ → List (List ℕ) × ℕ
  | rng, 0 => ([], rng)
  | rng, k + 1 =>
    let p := C.sample rng d mn mx
    let rest := sampleIters C d mn mx p.2 k
    (p.1 :: rest.1, rest.2)

/-- Subspace-sampling output of one `_get_local_region` call: the sampler is
invoked with `n_features = X_train.shape[1]`,
`min_features = int(d * local_min_features)` and
`max_features = int(d * local_max_features)` (lines 271-275). -/
def sampleOut (C : Collab) (m : LSCPModel) : List (List ℕ) × ℕ :=
  sampleIters C (numCols m.X_train_norm)
    (natFloor ((numCols m.X_train_norm : ℚ) * m.local_min_features))
    (natFloor ((numCols m.X_train_norm : ℚ) * m.local_max_features))
    m.rng m.local_region_iterations

/-- The feature subspaces drawn across the iterations of one
`_get_local_region` call. -/
def subspaces (C : Collab) (m : LSCPModel) : List (List ℕ) :=
  (sampleOut C m).1

/-- Accumulated raw k-NN votes of `_get_local_region`: for each query row,
the concatenation over all iterations of that row's `local_region_size`
nearest training indices in the iteration's subspace. -/
def rawVotes (C : Collab) (m : LSCPModel) (Xt : Mat) : List (List ℕ) :=
  (subspaces C m).foldl
    (fun acc fs =>
      List.zipWith (fun a b => a ++ b) acc
        (C.knn (colsSel m.X_train_norm fs) (colsSel Xt fs)
          m.local_region_size))
    (List.replicate Xt.length [])

/-- `LSCP._get_local_region`: repeated random-subspace k-NN voting followed
by thresholding (`Counter(votes).items()`, keep `count > threshold`);
returns the per-query local regions and the object state with the advanced
random handle. -/
def get_local_region (C : Collab) (m : LSCPModel) (Xt : Mat) :
    List (List ℕ) × LSCPModel :=
  ((rawVotes C m Xt).map
      (fun v => (uniqueKeys v).filter
        (fun i => decide (m.local_region_threshold < v.count i))),
    { m with rng := (sampleOut C m).2 })

/-- `LSCP._get_competent_detectors`: clamp `n_bins` to `n_clf` in place
(emitting a warning, returned as the Bool), histogram the correlation
scores, take the `n_selected` largest bins and return every detector whose
score lies within the selected bins' closed edge intervals
(`scores >= bin_edges[max_bin] & scores <= bin_edges[max_bin + 1]`). -/
def get_competent_detectors (st : LSCPModel) (scores : List ℚ) :
    List ℕ × LSCPModel × Bool :=
  let warned := decide (st.n_clf < st.n_bins)
  let st2 := if st.n_clf < st.n_bins then { st with n_bins := st.n_clf } else st
  let hist := histogram scores st2.n_bins
  let edges := bin_edges scores st2.n_bins
  let max_bins := argmaxn hist st2.n_selected
  let candidates := max_bins.foldl
    (fun acc b =>
      acc ++ (List.range scores.length).filter
        (fun d => decide (edges.getD b 0 ≤ scores.getD d 0) &&
          decide (scores.getD d 0 ≤ edges.getD (b + 1) 0)))
    []
  (candidates, st2, warned)

/-- Test-score matrix: row `i`, column `k` is detector `k`'s score for query
row `i` (`test_scores[:, k] = estimator.decision_function(X)`). -/
def testScoresOf (C : Collab) (nclf : ℕ) (X : Mat) : Mat :=
  (List.range X.length).map
    (fun i => (List.range nclf).map (fun k => (C.detectorScores k X).getD i 0))

/-- Per-query-point scoring loop of `_get_decision_scores`: restrict the
pseudo ground truth and standardized train scores to the point's local
region, correlate per detector, select competent detectors (threading the
object state) and average the point's standardized test scores over them. -/
def pointLoop (C : Collab) (testN : Mat) (pseudo : List ℚ) (trainN : Mat) :
    List (List ℕ) → ℕ → LSCPModel → List (Option ℚ) × LSCPModel
  | [], _, st => ([], st)
  | region :: rest, i, st =>
    let local_pseudo := region.map (fun idx => pseudo.getD idx 0)
    let local_train := region.map (fun idx => trainN.getD idx [])
    let corr := (List.range st.n_clf).map
      (fun k => C.pearson local_pseudo (local_train.map (fun r => r.getD k 0)))
    let out := get_competent_detectors st corr
    let sc := qMean (out.1.map (fun k => (testN.getD i []).getD k 0))
    let rest2 := pointLoop C testN pseudo trainN rest (i + 1) out.2.1
    (sc :: rest2.1, rest2.2)

/-- `LSCP._get_decision_scores`: local regions for the batch, per-detector
test scores, joint standardization, pseudo-ground-truth rewrite, then the
per-point loop.  A `none` entry models a NaN aggregate. -/
def get_decision_scores (C : Collab) (m : LSCPModel) (X : Mat) :
    List (Option ℚ) × LSCPModel :=
  let lr := get_local_region C m X
  let test_scores := testScoresOf C lr.2.n_clf X
  let std := C.standardize lr.2.train_scores test_scores
  let pseudo := std.1.map listMaxQ
  let m2 := { lr.2 with training_pseudo_label := pseudo }
  pointLoop C std.2 pseudo std.1 lr.1 0 m2

/-- `LSCP.decision_function`: shape check against the training feature
count (raising `ValueError` on mismatch, modelled as `Except.error`), then
the scoring helper. -/
def decision_function (C : Collab) (m : LSCPModel) (X : Mat) :
    Except String (List (Option ℚ) × LSCPModel) :=
  if m.n_features ≠ numCols X then
    Except.error "Number of features of the model must match the input."
  else
    Except.ok (get_decision_scores C m X)

section CompetentDetectors

/-- Effective bin count used by `_get_competent_detectors` after the
in-place clamp. -/
def clampBins (st : LSCPModel) : ℕ :=
  if st.n_clf < st.n_bins then st.n_clf else st.n_bins

theorem gcd_state (st : LSCPModel) (s : List ℚ) :
    (get_competent_detectors st s).2.1 =
      if st.n_clf < st.n_bins then { st with n_bins := st.n_clf } else st :=
  rfl

theorem gcd_warned (st : LSCPModel) (s : List ℚ) :
    (get_competent_detectors st s).2.2 = decide (st.n_clf < st.n_bins) :=
  rfl

theorem gcd_state_n_bins (st : LSCPModel) (s : List ℚ) :
    (get_competent_detectors st s).2.1.n_bins = clampBins st := by
  rw [gcd_state, clampBins]
  split <;> rfl

theorem gcd_state_fields (st : LSCPModel) (s : List ℚ) :
    (get_competent_detectors st s).2.1 =
      { st with n_bins := clampBins st } := by
  rw [gcd_state, clampBins]
  split <;> rfl

theorem argmaxn_one (xs : List ℕ) : argmaxn xs 1 = [idxOfMax xs] := by
  simp [argmaxn]

theorem gcd_candidates (st : LSCPModel) (s : List ℚ)
    (hsel : st.n_selected = 1) :
    (get_competent_detectors st s).1 =
      (List.range s.length).filter
        (fun d =>
          decide ((bin_edges s (clampBins st)).getD
              (idxOfMax (histogram s (clampBins st))) 0 ≤ s.getD d 0) &&
          decide (s.getD d 0 ≤ (bin_edges s (clampBins st)).getD
              (idxOfMax (histogram s (clampBins st)) + 1) 0)) := by
  have hnb : (if st.n_clf < st.n_bins then { st with n_bins := st.n_clf }
      else st).n_bins = clampBins st := by
    rw [clampBins]; split <;> rfl
  have hns : (if st.n_clf < st.n_bins then { st with n_bins := st.n_clf }
      else st).n_selected = st.n_selected := by
    split <;> rfl
  show (argmaxn (histogram s _) _).foldl _ [] = _
  rw [hnb, hns, hsel, argmaxn_one]
  simp

theorem clampBins_pos {st : LSCPModel} (hbins : 1 ≤ st.n_bins)
    (hclf : 1 ≤ st.n_clf) : 1 ≤ clampBins st := by
  rw [clampBins]; split <;> omega

theorem gcd_ne_nil (st : LSCPModel) (s : List ℚ) (hs : s ≠ [])
    (hbins : 1 ≤ st.n_bins) (hclf : 1 ≤ st.n_clf)
    (hsel : st.n_selected = 1) :
    (get_competent_detectors st s).1 ≠ [] := by
  have hn : 1 ≤ clampBins st := clampBins_pos hbins hclf
  have hfl := max_bin_nonempty (n := clampBins st) hs hn
  have hhist_ne : histogram s (clampBins st) ≠ [] := by
    intro hnil
    have := length_histogram s (clampBins st)
    rw [hnil] at this
    simp at this
    omega
  have hb : idxOfMax (histogram s (clampBins st)) < clampBins st := by
    have := idxOfMax_lt hhist_ne
    rwa [length_histogram] at this
  obtain ⟨y, hy⟩ := List.exists_mem_of_ne_nil _
    (List.ne_nil_of_length_pos (Nat.lt_of_lt_of_le Nat.zero_lt_one hfl))
  have hy1 : y ∈ s := (List.mem_filter.1 hy).1
  have hy2 := (List.mem_filter.1 hy).2
  obtain ⟨⟨d, hd⟩, hyd⟩ := List.mem_iff_get.1 hy1
  have hclosed := inBin_closed hy2
  have hgd : s.getD d 0 = y := by
    rw [List.getD_eq_getElem?_getD, List.getElem?_eq_getElem hd]
    simpa using hyd
  apply List.ne_nil_of_mem (a := d)
  rw [gcd_candidates st s hsel]
  apply List.mem_filter.2
  refine ⟨List.mem_range.2 hd, ?_⟩
  rw [Bool.and_eq_true, decide_eq_true_iff, decide_eq_true_iff]
  rw [bin_edges_getD (Nat.lt_succ_of_lt hb), bin_edges_getD (Nat.succ_lt_succ hb), hgd]
  exact hclosed

end CompetentDetectors

/-- Claim C4: when `n_bins = 1`, the Competency Selector returns all `m`
detector indices for every vector of `m` correlation scores — the single
histogram bin spans `[min(scores), max(scores)]` and every score lies
within its inclusive edges. -/
theorem claim_C4_single_bin_selects_all (st : LSCPModel) (s : List ℚ)
    (hbins : st.n_bins = 1) (hclf : 1 ≤ st.n_clf)
    (hlen : s.length = st.n_clf) (hsel : st.n_selected = 1) :
    (get_competent_detectors st s).1 = List.range st.n_clf := by
  have hcl : clampBins st = 1 := by
    rw [clampBins, hbins]
    split <;> omega
  rw [gcd_candidates st s hsel, hcl, ← hlen]
  apply List.filter_eq_self.2
  intro d hd
  have hdlt : d < s.length := List.mem_range.1 hd
  have hmem : s.getD d 0 ∈ s := getD_mem_of_lt s 0 hdlt
  have hb0 : idxOfMax (histogram s 1) = 0 := by
    have hne : histogram s 1 ≠ [] := by
      intro hnil
      have := length_histogram s 1
      rw [hnil] at this
      simp at this
    have := idxOfMax_lt hne
    rw [length_histogram] at this
    omega
  rw [hb0]
  rw [Bool.and_eq_true, decide_eq_true_iff, decide_eq_true_iff]
  rw [bin_edges_getD (by omega), bin_edges_getD (by omega)]
  have he0 : binEdge s 1 0 = binLo s := by simp [binEdge]
  have he1 : binEdge s 1 1 = binHi s := binEdge_last (by norm_num)
  rw [he0, he1]
  exact ⟨binLo_le hmem, le_binHi hmem⟩

/-- Claim C5: the Competency Selector returns exactly the detectors whose
correlation score lies within the selected densest bin's closed interval
`[bin_edge_low, bin_edge_high]`, inclusive on both ends — in particular a
score equal to the selected bin's upper edge (which is also the next bin's
lower edge) is included. -/
theorem claim_C5_inclusive_bin_membership (st : LSCPModel) (s : List ℚ)
    (d : ℕ) (hsel : st.n_selected = 1) :
    d ∈ (get_competent_detectors st s).1 ↔
      d < s.length ∧
      (bin_edges s (clampBins st)).getD
          (idxOfMax (histogram s (clampBins st))) 0 ≤ s.getD d 0 ∧
      s.getD d 0 ≤ (bin_edges s (clampBins st)).getD
          (idxOfMax (histogram s (clampBins st)) + 1) 0 := by
  rw [gcd_candidates st s hsel]
  simp [List.mem_filter, List.mem_range, and_assoc]

/-- Claim C6: with at least 2 detectors, the Competency Selector always
returns a non-empty candidate set (size ≥ 1), whatever the correlation
scores; increasing the number of detectors never reduces it below 1. -/
theorem claim_C6_candidates_nonempty (st : LSCPModel) (s : List ℚ)
    (hclf : 2 ≤ st.n_clf) (hlen : s.length = st.n_clf)
    (hbins : 1 ≤ st.n_bins) (hsel : st.n_selected = 1) :
    1 ≤ (get_competent_detectors st s).1.length := by
  have hs : s ≠ [] := by
    intro hnil
    rw [hnil] at hlen
    simp at hlen
    omega
  exact List.length_pos.2 (gcd_ne_nil st s hs hbins (by omega) hsel)

/-- Claim C9: when the configured `n_bins` exceeds the detector count, the
call overwrites the stored `n_bins` with `n_clf` and emits the warning;
every subsequent call then runs with the clamped value and no warning. -/
theorem claim_C9_n_bins_clamp_persists (st : LSCPModel) (s t : List ℚ)
    (h : st.n_clf < st.n_bins) :
    (get_competent_detectors st s).2.1.n_bins = st.n_clf ∧
    (get_competent_detectors st s).2.2 = true ∧
    (get_competent_detectors
        (get_competent_detectors st s).2.1 t).2.1.n_bins = st.n_clf ∧
    (get_competent_detectors
        (get_competent_detectors st s).2.1 t).2.2 = false := by
  have h1 : (get_competent_detectors st s).2.1 =
      { st with n_bins := st.n_clf } := by
    rw [gcd_state, if_pos h]
  refine ⟨by rw [h1], by rw [gcd_warned, decide_eq_true_eq]; exact h, ?_, ?_⟩
  · rw [gcd_state_n_bins, h1, clampBins]
    simp
  · rw [gcd_warned, h1]
    simp

section LocalRegion

theorem getD_replicate {α : Type} (a d : α) {n j : ℕ} (hj : j < n) :
    (List.replicate n a).getD j d = a := by
  rw [List.getD_eq_getElem?_getD, List.getElem?_replicate]
  simp [hj]

theorem sampleIters_length (C : Collab) (d mn mx : ℕ) :
    ∀ (k rng : ℕ), (sampleIters C d mn mx rng k).1.length = k := by
  intro k
  induction k with
  | zero => intro rng; rfl
  | succ k ih => intro rng; simp [sampleIters, ih]

theorem subspaces_length (C : Collab) (m : LSCPModel) :
    (subspaces C m).length = m.local_region_iterations :=
  sampleIters_length C _ _ _ _ _

theorem mem_sampleIters {C : Collab} {d mn mx : ℕ} {fs : List ℕ} :
    ∀ {k rng : ℕ}, fs ∈ (sampleIters C d mn mx rng k).1 →
      ∃ r, fs = (C.sample r d mn mx).1 := by
  intro k
  induction k with
  | zero => intro rng h; cases h
  | succ k ih =>
    intro rng h
    rw [sampleIters] at h
    rcases List.mem_cons.1 h with hfs | hfs
    · exact ⟨rng, hfs⟩
    · exact ih hfs

theorem natFloor_mono {a b : ℚ} (h : a ≤ b) : natFloor a ≤ natFloor b :=
  Int.toNat_le_toNat (Int.floor_le_floor h)

theorem natFloor_le_natCeil (q : ℚ) : natFloor q ≤ natCeil q :=
  Int.toNat_le_toNat (Int.floor_le_ceil q)

theorem natFloor_cast_mul_le {d : ℕ} {q : ℚ} (h1 : q ≤ 1) :
    natFloor ((d : ℚ) * q) ≤ d := by
  have hle : (d : ℚ) * q ≤ (d : ℚ) := by
    nlinarith [Nat.cast_nonneg (α := ℚ) d]
  have := natFloor_mono hle
  rwa [show natFloor ((d : ℚ)) = d by
    rw [natFloor, Int.floor_natCast]; exact Int.toNat_natCast d] at this

/-- The fold that accumulates raw k-NN votes, step by step. -/
theorem voteFold_invariant (C : Collab) (tr : Mat) (k : ℕ)
    (hK : KnnValid C.knn) (Xt : Mat) :
    ∀ (L : List (List ℕ)) (acc : List (List ℕ)), acc.length = Xt.length →
      (L.foldl
          (fun acc2 fs =>
            List.zipWith (fun a b => a ++ b) acc2
              (C.knn (colsSel tr fs) (colsSel Xt fs) k)) acc).length
        = Xt.length ∧
      ∀ j, j < Xt.length →
        ((L.foldl
            (fun acc2 fs =>
              List.zipWith (fun a b => a ++ b) acc2
                (C.knn (colsSel tr fs) (colsSel Xt fs) k)) acc).getD j
            []).length
          = (acc.getD j []).length + L.length * k := by
  intro L
  induction L with
  | nil =>
    intro acc hacc
    exact ⟨hacc, fun j _ => by simp⟩
  | cons fs L ih =>
    intro acc hacc
    set ind := C.knn (colsSel tr fs) (colsSel Xt fs) k with hind
    have hindlen : ind.length = Xt.length := by
      rw [hind, (hK (colsSel tr fs) (colsSel Xt fs) k).1]
      simp [colsSel]
    have hstep : (List.zipWith (fun a b => a ++ b) acc ind).length
        = Xt.length := by
      rw [List.length_zipWith, hacc, hindlen]
      exact Nat.min_self _
    obtain ⟨hl1, hl2⟩ := ih (List.zipWith (fun a b => a ++ b) acc ind) hstep
    refine ⟨by simpa using hl1, fun j hj => ?_⟩
    have hrow := hl2 j hj
    have hzip : (List.zipWith (fun a b => a ++ b) acc ind).getD j []
        = acc.getD j [] ++ ind.getD j [] :=
      getD_zipWith_append (by omega) (by omega)
    have hindrow : (ind.getD j []).length = k :=
      (hK (colsSel tr fs) (colsSel Xt fs) k).2 _
        (getD_mem_of_lt ind [] (by omega))
    simp only [List.foldl_cons]
    rw [hl2 j hj, hzip, List.length_append, hindrow, List.length_cons]
    ring

theorem rawVotes_length (C : Collab) (m : LSCPModel) (Xt : Mat)
    (hK : KnnValid C.knn) : (rawVotes C m Xt).length = Xt.length :=
  (voteFold_invariant C m.X_train_norm m.local_region_size hK Xt
    (subspaces C m) (List.replicate Xt.length []) (by simp)).1

theorem rawVotes_row_length (C : Collab) (m : LSCPModel) (Xt : Mat)
    (hK : KnnValid C.knn) {j : ℕ} (hj : j < Xt.length) :
    ((rawVotes C m Xt).getD j []).length
      = m.local_region_iterations * m.local_region_size := by
  have := (voteFold_invariant C m.X_train_norm m.local_region_size hK Xt
    (subspaces C m) (List.replicate Xt.length []) (by simp)).2 j hj
  rw [rawVotes, this, getD_replicate _ _ hj, subspaces_length]
  simp

end LocalRegion

/-- Claim C2 (amended): in every local-region iteration the sampled feature
subspace has distinct indices and its size lies between
`int(d * 0.5)` — the floor, not the ceiling originally claimed — and
`int(d * local_max_features)`, hence also at most
`ceil(d * local_max_features)`. -/
theorem claim_C2_subspace_size_bounds (C : Collab) (m : LSCPModel)
    (hS : SamplerValid C.sample)
    (hminmax : m.local_min_features ≤ m.local_max_features)
    (hmax1 : m.local_max_features ≤ 1)
    (fs : List ℕ) (hfs : fs ∈ subspaces C m) :
    fs.Nodup ∧
    natFloor ((numCols m.X_train_norm : ℚ) * m.local_min_features)
      ≤ fs.length ∧
    fs.length
      ≤ natFloor ((numCols m.X_train_norm : ℚ) * m.local_max_features) ∧
    fs.length
      ≤ natCeil ((numCols m.X_train_norm : ℚ) * m.local_max_features) := by
  obtain ⟨r, hr⟩ := mem_sampleIters hfs
  have hmnmx : natFloor ((numCols m.X_train_norm : ℚ) * m.local_min_features)
      ≤ natFloor ((numCols m.X_train_norm : ℚ) * m.local_max_features) := by
    apply natFloor_mono
    have : (0 : ℚ) ≤ (numCols m.X_train_norm : ℚ) := Nat.cast_nonneg _
    nlinarith
  have hmxd : natFloor ((numCols m.X_train_norm : ℚ) * m.local_max_features)
      ≤ numCols m.X_train_norm := natFloor_cast_mul_le hmax1
  obtain ⟨hnd, hlo, hhi, _⟩ := hS r (numCols m.X_train_norm)
    (natFloor ((numCols m.X_train_norm : ℚ) * m.local_min_features))
    (natFloor ((numCols m.X_train_norm : ℚ) * m.local_max_features))
    hmnmx hmxd
  subst hr
  exact ⟨hnd, hlo, hhi, le_trans hhi (natFloor_le_natCeil _)⟩

/-- Claim C3: each query point's local region is exactly the set of training
indices whose occurrence count over all iterations strictly exceeds the
threshold; consequently it is a subset of the raw k-NN votes and its size
is bounded by `iterations * region_size`. -/
theorem claim_C3_threshold_region (C : Collab) (m : LSCPModel) (Xt : Mat)
    (hK : KnnValid C.knn) (j : ℕ) (hj : j < Xt.length) :
    (∀ i : ℕ, i ∈ (get_local_region C m Xt).1.getD j [] ↔
        m.local_region_threshold < ((rawVotes C m Xt).getD j []).count i) ∧
    (get_local_region C m Xt).1.getD j [] ⊆ (rawVotes C m Xt).getD j [] ∧
    ((get_local_region C m Xt).1.getD j []).length
      ≤ m.local_region_iterations * m.local_region_size := by
  have hlen : j < (rawVotes C m Xt).length := by
    rw [rawVotes_length C m Xt hK]; exact hj
  have hrow : (get_local_region C m Xt).1.getD j []
      = (uniqueKeys ((rawVotes C m Xt).getD j [])).filter
          (fun i => decide (m.local_region_threshold
            < ((rawVotes C m Xt).getD j []).count i)) := by
    show ((rawVotes C m Xt).map _).getD j [] = _
    rw [getD_map_lt _ [] [] hlen]
  have hmem : ∀ i : ℕ, i ∈ (get_local_region C m Xt).1.getD j [] ↔
      m.local_region_threshold < ((rawVotes C m Xt).getD j []).count i := by
    intro i
    rw [hrow, List.mem_filter, mem_uniqueKeys, decide_eq_true_iff]
    constructor
    · exact fun h => h.2
    · intro h
      refine ⟨?_, h⟩
      have : 0 < ((rawVotes C m Xt).getD j []).count i := by omega
      exact List.count_pos_iff.1 this
  refine ⟨hmem, ?_, ?_⟩
  · intro i hi
    have h := (hmem i).1 hi
    have : 0 < ((rawVotes C m Xt).getD j []).count i := by omega
    exact List.count_pos_iff.1 this
  · rw [hrow, ← rawVotes_row_length C m Xt hK hj]
    exact le_trans (List.length_filter_le _ _)
      (length_uniqueKeys_le _)

section Orchestrator

theorem gcd_preserves (st : LSCPModel) (s : List ℚ) :
    (get_competent_detectors st s).2.1.n_clf = st.n_clf ∧
    (get_competent_detectors st s).2.1.n_selected = st.n_selected ∧
    (get_competent_detectors st s).2.1.rng = st.rng ∧
    (get_competent_detectors st s).2.1.n_features = st.n_features ∧
    (get_competent_detectors st s).2.1.X_train_norm = st.X_train_norm ∧
    (get_competent_detectors st s).2.1.train_scores = st.train_scores ∧
    (get_competent_detectors st s).2.1.training_pseudo_label
      = st.training_pseudo_label := by
  rw [gcd_state_fields]
  exact ⟨rfl, rfl, rfl, rfl, rfl, rfl, rfl⟩

theorem pointLoop_length (C : Collab) (tN : Mat) (p : List ℚ) (trN : Mat) :
    ∀ (rs : List (List ℕ)) (i : ℕ) (st : LSCPModel),
      (pointLoop C tN p trN rs i st).1.length = rs.length := by
  intro rs
  induction rs with
  | nil => intro i st; rfl
  | cons r rs ih =>
    intro i st
    simp only [pointLoop, List.length_cons]
    rw [ih]

theorem pointLoop_preserves (C : Collab) (tN : Mat) (p : List ℚ) (trN : Mat) :
    ∀ (rs : List (List ℕ)) (i : ℕ) (st : LSCPModel),
      (pointLoop C tN p trN rs i st).2.n_clf = st.n_clf ∧
      (pointLoop C tN p trN rs i st).2.n_selected = st.n_selected ∧
      (pointLoop C tN p trN rs i st).2.rng = st.rng ∧
      (pointLoop C tN p trN rs i st).2.n_features = st.n_features ∧
      (pointLoop C tN p trN rs i st).2.X_train_norm = st.X_train_norm ∧
      (pointLoop C tN p trN rs i st).2.train_scores = st.train_scores ∧
      (pointLoop C tN p trN rs i st).2.training_pseudo_label
        = st.training_pseudo_label := by
  intro rs
  induction rs with
  | nil => intro i st; exact ⟨rfl, rfl, rfl, rfl, rfl, rfl, rfl⟩
  | cons r rs ih =>
    intro i st
    simp only [pointLoop]
    refine ⟨((ih _ _).1).trans (gcd_preserves st _).1,
      ((ih _ _).2.1).trans (gcd_preserves st _).2.1,
      ((ih _ _).2.2.1).trans (gcd_preserves st _).2.2.1,
      ((ih _ _).2.2.2.1).trans (gcd_preserves st _).2.2.2.1,
      ((ih _ _).2.2.2.2.1).trans (gcd_preserves st _).2.2.2.2.1,
      ((ih _ _).2.2.2.2.2.1).trans (gcd_preserves st _).2.2.2.2.2.1,
      ((ih _ _).2.2.2.2.2.2).trans (gcd_preserves st _).2.2.2.2.2.2⟩

theorem pointLoop_isSome (C : Collab) (tN : Mat) (p : List ℚ) (trN : Mat) :
    ∀ (rs : List (List ℕ)) (i : ℕ) (st : LSCPModel),
      1 ≤ st.n_bins → 1 ≤ st.n_clf → st.n_selected = 1 →
      ∀ o ∈ (pointLoop C tN p trN rs i st).1, o.isSome = true := by
  intro rs
  induction rs with
  | nil => intro i st _ _ _ o ho; cases ho
  | cons r rs ih =>
    intro i st hbins hclf hsel o ho
    simp only [pointLoop] at ho
    rcases List.mem_cons.1 ho with rfl | ho2
    · have hcorr : ((List.range st.n_clf).map
          (fun k => C.pearson (r.map (fun idx => p.getD idx 0))
            ((r.map (fun idx => trN.getD idx [])).map
              (fun row => row.getD k 0)))) ≠ [] := by
        intro hnil
        have : st.n_clf = 0 := by simpa using congrArg List.length hnil
        omega
      have hcand := gcd_ne_nil st _ hcorr hbins hclf hsel
      rw [qMean]
      rw [if_neg (by simpa [List.isEmpty_iff] using hcand)]
      rfl
    · refine ih (i + 1) _ ?_ ?_ ?_ o ho2
      · rw [gcd_state_n_bins]
        exact clampBins_pos hbins hclf
      · rw [(gcd_preserves st _).1]
        exact hclf
      · rw [(gcd_preserves st _).2.1]
        exact hsel

theorem get_local_region_length (C : Collab) (m : LSCPModel) (Xt : Mat)
    (hK : KnnValid C.knn) :
    (get_local_region C m Xt).1.length = Xt.length := by
  show ((rawVotes C m Xt).map _).length = _
  rw [List.length_map, rawVotes_length C m Xt hK]

theorem get_local_region_snd (C : Collab) (m : LSCPModel) (Xt : Mat) :
    (get_local_region C m Xt).2 = { m with rng := (sampleOut C m).2 } :=
  rfl

end Orchestrator

/-- Claim C7: a query matrix whose feature count differs from the training
feature count makes `decision_function` fail with the shape-mismatch error
and produce no scores; when the counts match, no such error is raised. -/
theorem claim_C7_shape_mismatch (C : Collab) (m : LSCPModel) (X : Mat) :
    (m.n_features ≠ numCols X →
      decision_function C m X =
        Except.error
          "Number of features of the model must match the input.") ∧
    (m.n_features = numCols X →
      decision_function C m X =
        Except.ok (get_decision_scores C m X)) := by
  constructor
  · intro h
    rw [decision_function, if_pos h]
  · intro h
    rw [decision_function, if_neg (not_not_intro h)]

/-- Claim C8: the decision path is deterministic — two calls on objects in
identical stored state (in particular an identically-seeded random-source
handle for the subspace sampler) with identical query input return
identical results. -/
theorem claim_C8_deterministic (C : Collab) (m1 m2 : LSCPModel) (X : Mat)
    (h1 : m1.n_clf = m2.n_clf)
    (h2 : m1.local_region_size = m2.local_region_size)
    (h3 : m1.local_max_features = m2.local_max_features)
    (h4 : m1.local_min_features = m2.local_min_features)
    (h5 : m1.local_region_iterations = m2.local_region_iterations)
    (h6 : m1.local_region_threshold = m2.local_region_threshold)
    (h7 : m1.n_bins = m2.n_bins) (h8 : m1.n_selected = m2.n_selected)
    (h9 : m1.rng = m2.rng) (h10 : m1.n_features = m2.n_features)
    (h11 : m1.X_train_norm = m2.X_train_norm)
    (h12 : m1.train_scores = m2.train_scores)
    (h13 : m1.training_pseudo_label = m2.training_pseudo_label) :
    decision_function C m1 X = decision_function C m2 X := by
  have hm : m1 = m2 :=
    LSCPModel.ext h1 h2 h3 h4 h5 h6 h7 h8 h9 h10 h11 h12 h13
  rw [hm]

/-- Claim C1: with the collaborators honouring their contracts (in
particular the Pearson primitive total per §6/§7), a batch containing a
query point whose local region is empty or smaller than 2 still gets a
full vector of finite scores — no error, no aborted batch, no NaN in any
aggregate. -/
theorem claim_C1_degenerate_region_finite (C : Collab) (m : LSCPModel)
    (X : Mat) (hK : KnnValid C.knn) (hclf : 1 ≤ m.n_clf)
    (hbins : 1 ≤ m.n_bins) (hsel : m.n_selected = 1)
    (hshape : m.n_features = numCols X)
    (_hdeg : ∃ r ∈ (get_local_region C m X).1, r.length < 2) :
    ∃ sc m2, decision_function C m X = Except.ok (sc, m2) ∧
      sc.length = X.length ∧ ∀ o ∈ sc, o.isSome = true := by
  refine ⟨(get_decision_scores C m X).1, (get_decision_scores C m X).2,
    ?_, ?_, ?_⟩
  · rw [decision_function, if_neg (not_not_intro hshape)]
  · simp only [get_decision_scores]
    rw [pointLoop_length]
    exact get_local_region_length C m X hK
  · simp only [get_decision_scores]
    exact pointLoop_isSome _ _ _ _ _ _ _ hbins hclf hsel

/-!
Concrete collaborator instances and a small fitted model, used to witness
the theorems and to exhibit counterexamples.
-/

/-- Simple collaborator instance: the sampler returns the first `mn`
feature indices and bumps the handle; k-NN always answers training index 0;
the correlation primitive returns the 0 sentinel; standardization is the
identity; detectors score 0. -/
def collabEx : Collab :=
  { sample := fun rng _d mn _mx => (List.range mn, rng + 1)
    knn := fun _tr te k => te.map (fun _ => List.replicate k 0)
    pearson := fun _ _ => 0
    standardize := fun a b => (a, b)
    detectorScores := fun _ X => X.map (fun _ => 0) }

/-- Collaborator instance whose sampled subspace depends on the random
handle, separating consecutive calls. -/
def collabRng : Collab :=
  { sample := fun rng _d _mn _mx => ([rng], rng + 1)
    knn := fun _tr te k => te.map (fun _ => List.replicate k 0)
    pearson := fun _ _ => 0
    standardize := fun a b => (a, b)
    detectorScores := fun _ X => X.map (fun _ => 0) }

theorem collabEx_sampler_valid : SamplerValid collabEx.sample := by
  intro rng d mn mx hmnmx hmxd
  refine ⟨?_, ?_, ?_, ?_⟩
  · show (List.range mn).Nodup
    exact List.nodup_range mn
  · show mn ≤ (List.range mn).length
    simp
  · show (List.range mn).length ≤ mx
    simpa using hmnmx
  · intro i hi
    have h2 : i ∈ List.range mn := hi
    have := List.mem_range.1 h2
    omega

theorem collabEx_knn_valid : KnnValid collabEx.knn := by
  intro tr te k
  constructor
  · show (te.map _).length = te.length
    simp
  · intro l hl
    have hl2 : l ∈ te.map (fun _ => List.replicate k (0 : ℕ)) := hl
    obtain ⟨r, _, rfl⟩ := List.mem_map.1 hl2
    simp

/-- A small fitted model: 2 detectors, 1 training point, 1 feature. -/
def mEx : LSCPModel :=
  { n_clf := 2
    local_region_size := 1
    local_max_features := 1
    local_min_features := 1/2
    local_region_iterations := 20
    local_region_threshold := 10
    n_bins := 2
    n_selected := 1
    rng := 0
    n_features := 1
    X_train_norm := [[0]]
    train_scores := [[0, 0]]
    training_pseudo_label := [] }

/-- Query batch matching `mEx` (one row, one feature). -/
def XEx : Mat := [[5]]

/-- Variant of `mEx` with a 3-feature training matrix, exhibiting the
floor/ceil gap in the subspace-size bounds. -/
def mC2 : LSCPModel :=
  { mEx with n_features := 3, X_train_norm := [[0, 0, 0]] }

/-- Claim C10: `decision_function` is not read-only — the stored
random-state handle is advanced through the subspace sampler and the
stored pseudo-ground-truth vector is rewritten, while the training matrix,
train score matrix and feature count are unchanged; consequently two
consecutive calls on the same object need not sample the same feature
subspaces (witnessed concretely). -/
theorem claim_C10_frame_effects :
    (∀ (C : Collab) (m : LSCPModel) (X : Mat),
      m.n_features = numCols X →
      ∃ sc m2, decision_function C m X = Except.ok (sc, m2) ∧
        m2.X_train_norm = m.X_train_norm ∧
        m2.train_scores = m.train_scores ∧
        m2.n_features = m.n_features ∧
        m2.rng = (sampleOut C m).2 ∧
        m2.training_pseudo_label =
          ((C.standardize m.train_scores
            (testScoresOf C m.n_clf X)).1).map listMaxQ) ∧
    subspaces collabRng mEx ≠
      subspaces collabRng (get_decision_scores collabRng mEx XEx).2 := by
  constructor
  · intro C m X hshape
    refine ⟨(get_decision_scores C m X).1, (get_decision_scores C m X).2,
      ?_, ?_, ?_, ?_, ?_, ?_⟩
    · rw [decision_function, if_neg (not_not_intro hshape)]
    · simp only [get_decision_scores]
      exact (pointLoop_preserves _ _ _ _ _ _ _).2.2.2.2.1
    · simp only [get_decision_scores]
      exact (pointLoop_preserves _ _ _ _ _ _ _).2.2.2.2.2.1
    · simp only [get_decision_scores]
      exact (pointLoop_preserves _ _ _ _ _ _ _).2.2.2.1
    · simp only [get_decision_scores]
      exact (pointLoop_preserves _ _ _ _ _ _ _).2.2.1
    · simp only [get_decision_scores]
      exact (pointLoop_preserves _ _ _ _ _ _ _).2.2.2.2.2.2
  · decide

/-- Variant of `mEx` with a single histogram bin. -/
def mBins1 : LSCPModel := { mEx with n_bins := 1 }

/-- Variant of `mEx` with more bins than detectors. -/
def mBins9 : LSCPModel := { mEx with n_bins := 5 }

/-- Claim C2, counterexample to the original bounds: with a valid sampler
and a 3-feature training matrix, an iteration samples the subspace `[0]`
of size 1, strictly below the claimed lower bound
`ceil(d * min_feature_frac) = ceil(1.5) = 2`. -/
theorem claim_C2_counterexample :
    SamplerValid collabEx.sample ∧
    [0] ∈ subspaces collabEx mC2 ∧
    ([0] : List ℕ).length <
      natCeil ((numCols mC2.X_train_norm : ℚ) * mC2.local_min_features) :=
  ⟨collabEx_sampler_valid, of_decide_eq_true (by with_unfolding_all rfl),
    of_decide_eq_true (by with_unfolding_all rfl)⟩

/-- Witness for C2 (amended) at the concrete sampler and model. -/
theorem claim_C2_witness :
    ([0] : List ℕ).Nodup ∧
    natFloor ((numCols mC2.X_train_norm : ℚ) * mC2.local_min_features)
      ≤ ([0] : List ℕ).length ∧
    ([0] : List ℕ).length
      ≤ natFloor ((numCols mC2.X_train_norm : ℚ) * mC2.local_max_features) ∧
    ([0] : List ℕ).length
      ≤ natCeil ((numCols mC2.X_train_norm : ℚ) * mC2.local_max_features) :=
  claim_C2_subspace_size_bounds collabEx mC2 collabEx_sampler_valid
    (of_decide_eq_true (by with_unfolding_all rfl))
    (of_decide_eq_true (by with_unfolding_all rfl)) [0]
    (of_decide_eq_true (by with_unfolding_all rfl))

/-- Witness for C3 at the concrete collaborators and model. -/
theorem claim_C3_witness :
    (∀ i : ℕ, i ∈ (get_local_region collabEx mEx XEx).1.getD 0 [] ↔
        mEx.local_region_threshold
          < ((rawVotes collabEx mEx XEx).getD 0 []).count i) ∧
    (get_local_region collabEx mEx XEx).1.getD 0 []
      ⊆ (rawVotes collabEx mEx XEx).getD 0 [] ∧
    ((get_local_region collabEx mEx XEx).1.getD 0 []).length
      ≤ mEx.local_region_iterations * mEx.local_region_size :=
  claim_C3_threshold_region collabEx mEx XEx collabEx_knn_valid 0 (by decide)

/-- Witness for C4 at a concrete one-bin configuration. -/
theorem claim_C4_witness :
    (get_competent_detectors mBins1 [0, 1]).1 = List.range mBins1.n_clf :=
  claim_C4_single_bin_selects_all mBins1 [0, 1] (by decide) (by decide)
    (by decide) (by decide)

/-- Witness for C5 at a concrete score vector and detector index. -/
theorem claim_C5_witness :
    (1 : ℕ) ∈ (get_competent_detectors mEx [0, 1]).1 ↔
      1 < ([0, 1] : List ℚ).length ∧
      (bin_edges [0, 1] (clampBins mEx)).getD
          (idxOfMax (histogram [0, 1] (clampBins mEx))) 0
        ≤ ([0, 1] : List ℚ).getD 1 0 ∧
      ([0, 1] : List ℚ).getD 1 0
        ≤ (bin_edges [0, 1] (clampBins mEx)).getD
            (idxOfMax (histogram [0, 1] (clampBins mEx)) + 1) 0 :=
  claim_C5_inclusive_bin_membership mEx [0, 1] 1 (by decide)

/-- Witness for C6 at a concrete configuration. -/
theorem claim_C6_witness :
    1 ≤ (get_competent_detectors mEx [0, 1]).1.length :=
  claim_C6_candidates_nonempty mEx [0, 1] (by decide) (by decide)
    (by decide) (by decide)

/-- Witness for C1 at the concrete model, whose single query point has the
degenerate local region `[0]` of size 1 < 2. -/
theorem claim_C1_witness :
    ∃ sc m2, decision_function collabEx mEx XEx = Except.ok (sc, m2) ∧
      sc.length = XEx.length ∧ ∀ o ∈ sc, o.isSome = true :=
  claim_C1_degenerate_region_finite collabEx mEx XEx collabEx_knn_valid
    (by decide) (by decide) (by decide) (by decide)
    (of_decide_eq_true (by with_unfolding_all rfl))

/-- Witness for C7: a 2-feature query against the 1-feature model errors;
the matching query does not. -/
theorem claim_C7_witness :
    decision_function collabEx mEx [[1, 2]] =
      Except.error "Number of features of the model must match the input." ∧
    decision_function collabEx mEx XEx =
      Except.ok (get_decision_scores collabEx mEx XEx) :=
  ⟨(claim_C7_shape_mismatch collabEx mEx [[1, 2]]).1 (by decide),
   (claim_C7_shape_mismatch collabEx mEx XEx).2 (by decide)⟩

/-- Witness for C8 at concrete equal states. -/
theorem claim_C8_witness :
    decision_function collabEx mEx XEx = decision_function collabEx mEx XEx :=
  claim_C8_deterministic collabEx mEx mEx XEx rfl rfl rfl rfl rfl rfl rfl
    rfl rfl rfl rfl rfl rfl

/-- Witness for C9 at a concrete over-binned configuration. -/
theorem claim_C9_witness :
    (get_competent_detectors mBins9 [0, 1]).2.1.n_bins = mBins9.n_clf ∧
    (get_competent_detectors mBins9 [0, 1]).2.2 = true ∧
    (get_competent_detectors
        (get_competent_detectors mBins9 [0, 1]).2.1 [2, 3]).2.1.n_bins
      = mBins9.n_clf ∧
    (get_competent_detectors
        (get_competent_detectors mBins9 [0, 1]).2.1 [2, 3]).2.2 = false :=
  claim_C9_n_bins_clamp_persists mBins9 [0, 1] [2, 3] (by decide)

/-- Witness for C10's universal frame part at the concrete model. -/
theorem claim_C10_witness :
    ∃ sc m2, decision_function collabEx mEx XEx = Except.ok (sc, m2) ∧
      m2.X_train_norm = mEx.X_train_norm ∧
      m2.train_scores = mEx.train_scores ∧
      m2.n_features = mEx.n_features ∧
      m2.rng = (sampleOut collabEx mEx).2 ∧
      m2.training_pseudo_label =
        ((collabEx.standardize mEx.train_scores
          (testScoresOf collabEx mEx.n_clf XEx)).1).map listMaxQ :=
  claim_C10_frame_effects.1 collabEx mEx XEx (by decide)
